import Mathlib

/-!
Verification of the seq2seq neural machine translation repository
(`translate/seq2seq_model.py`, `translate/decoders.py`).

The Python source is shallowly embedded in Lean:
* token ids are natural numbers (`ℤ` on the batch-construction side, where the
  code uses `-1` as a padding sentinel before replacing it);
* numpy / TensorFlow float arrays become `List ℚ` / functions into `ℚ` where
  the claims are order- or value-theoretic and fully computable, and functions
  into `ℝ` where genuinely transcendental operations (`exp`, `tanh`, `sigmoid`)
  occur (attention softmax);
* fallible Python operations (tuple unpacking of the wrong arity, a function
  falling off the end of a loop without returning) return `Option`;
* external collaborators that are not part of the two source files
  (the TensorFlow session, the recurrent cells of `translate/rnn.py`, the
  n-gram estimate of `translate/utils.py`) are abstracted as function
  parameters; the special token ids of `translate/utils.py` are modelled
  from the spec.
-/

/-- Modelled from the spec: `translate/utils.py` (absent from the sources)
defines the special token ids; the spec fixes the vocabulary layout
`{PAD=0, EOS=1, BOS=2}`. `utils.EOS_ID` is the end-of-sequence marker. -/
def EOS_ID : ℕ := 1

/-- Modelled from the spec: `utils.BOS_ID`, the beginning-of-sequence marker,
id 2 in the spec's vocabulary layout `{PAD=0, EOS=1, BOS=2}`. -/
def BOS_ID : ℕ := 2

/-! ## Batch construction: `Seq2SeqModel.get_batch` (seq2seq_model.py:520-586)

Token ids on this side are integers because the source temporarily pads the
decoder sequences with the sentinel `-1` before replacing it by `EOS_ID`.
A sample is one source sentence per encoder plus one target sentence;
binary (pre-vectorized) input channels are embedded separately below. -/

structure BatchSample where
  srcs : List (List ℤ)
  trg : List ℤ
deriving DecidableEq

structure BatchConfig where
  encoderCount : ℕ
  maxInputLenCap : Option ℕ
  maxOutputLenModel : ℕ
deriving DecidableEq

/-- `max(len(data_[i]) for data_ in data)` (line 533); `0` on an empty batch,
where the source would raise `ValueError`. -/
def batchMaxInputLen (data : List BatchSample) (i : ℕ) : ℕ :=
  (data.map (fun s => (s.srcs.getD i []).length)).foldr max 0

/-- Line 534-535: optional truncation of the batch maximum by `self.max_input_len`. -/
def cappedMaxInputLen (cfg : BatchConfig) (data : List BatchSample) (i : ℕ) : ℕ :=
  match cfg.maxInputLenCap with
  | none => batchMaxInputLen data i
  | some c => min (batchMaxInputLen data i) c

/-- Line 537: `min(max(len(data_[-1]) for data_ in data), self.max_output_len)`. -/
def batchMaxOutputLen (cfg : BatchConfig) (data : List BatchSample) : ℕ :=
  min ((data.map (fun s => s.trg.length)).foldr max 0) cfg.maxOutputLenModel

/-- Lines 546-552 for a token (non-binary) encoder: truncate the source
sentence to the capped batch maximum and append `1 + max_len - len` copies of
the pad token, which the source takes to be `utils.EOS_ID`. -/
def encoderRow (cfg : BatchConfig) (data : List BatchSample) (i : ℕ)
    (s : BatchSample) : List ℤ :=
  let ml := cappedMaxInputLen cfg data i
  let src := (s.srcs.getD i []).take ml
  src ++ List.replicate (1 + ml - src.length) (EOS_ID : ℤ)

/-- Line 553: `encoder_input_length[i].append(len(src_sentence) + 1)`. -/
def encoderRowLen (cfg : BatchConfig) (data : List BatchSample) (i : ℕ)
    (s : BatchSample) : ℕ :=
  ((s.srcs.getD i []).take (cappedMaxInputLen cfg data i)).length + 1

/-- Line 544 for a binary encoder: the pad element is a zero vector of the
embedding size. -/
def binaryPad (embeddingSize : ℕ) : List ℚ :=
  List.replicate embeddingSize 0

/-- Lines 548-552 for a binary (pre-vectorized) encoder channel. -/
def binaryEncoderRow (embeddingSize ml : ℕ) (src : List (List ℚ)) :
    List (List ℚ) :=
  let src' := src.take ml
  src' ++ List.replicate (1 + ml - src'.length) (binaryPad embeddingSize)

/-- Lines 555-563: one decoder-side row per sample.  In decoding mode the row
is `[BOS] + [EOS] * max_output_len`; in training mode it is
`[BOS] + trg + [EOS] + [-1] * pad`. -/
def decoderRow (cfg : BatchConfig) (data : List BatchSample) (decoding : Bool)
    (s : BatchSample) : List ℤ :=
  if decoding then
    (BOS_ID : ℤ) :: List.replicate cfg.maxOutputLenModel (EOS_ID : ℤ)
  else
    let mo := batchMaxOutputLen cfg data
    let trg := s.trg.take mo
    (BOS_ID : ℤ) :: (trg ++ [(EOS_ID : ℤ)] ++ List.replicate (mo - trg.length) (-1))

/-- Lines 556-561: the recorded decoder length. -/
def decoderRowLen (cfg : BatchConfig) (data : List BatchSample) (decoding : Bool)
    (s : BatchSample) : ℕ :=
  if decoding then cfg.maxOutputLenModel
  else (s.trg.take (batchMaxOutputLen cfg data)).length + 1

/-- Line 578-579: `batch[batch == -1] = utils.EOS_ID`. -/
def replaceSentinel (m : List (List ℤ)) : List (List ℤ) :=
  m.map (fun r => r.map (fun x => if x = -1 then (EOS_ID : ℤ) else x))

/-- Line 576: `(batch_targets != -1).astype(np.float32)`, computed before the
sentinel replacement. -/
def sentinelWeights (m : List (List ℤ)) : List (List ℚ) :=
  m.map (fun r => r.map (fun x => if x = -1 then (0 : ℚ) else 1))

structure BatchResult where
  encoderInputs : List (List (List ℤ))
  decoderInputs : List (List ℤ)
  targets : List (List ℤ)
  targetWeights : List (List ℚ)
  encoderInputLength : List (List ℕ)
  decoderInputLength : List ℕ
deriving DecidableEq

/-- `Seq2SeqModel.get_batch` (lines 520-586), token-encoder case.
`decoder_inputs` drops the last column (`[:, :-1].T`), `targets` drops the
first (`[:, 1:].T`); both are then time-major (transposed), the weights are
computed before the `-1 → EOS` replacement, and the replacement is applied to
inputs and targets. -/
def get_batch (cfg : BatchConfig) (data : List BatchSample) (decoding : Bool) :
    BatchResult :=
  let rows := data.map (decoderRow cfg data decoding)
  let ins := (rows.map (fun r => r.dropLast)).transpose
  let tgs := (rows.map (fun r => r.drop 1)).transpose
  { encoderInputs :=
      (List.range cfg.encoderCount).map (fun i => data.map (encoderRow cfg data i))
    decoderInputs := replaceSentinel ins
    targets := replaceSentinel tgs
    targetWeights := sentinelWeights tgs
    encoderInputLength :=
      (List.range cfg.encoderCount).map (fun i => data.map (encoderRowLen cfg data i))
    decoderInputLength := data.map (decoderRowLen cfg data decoding) }

/-- The concrete configuration of the spec's batch scenario: one token
encoder, no input-length cap, `max_output_len = 50`. -/
def scenarioCfg : BatchConfig := ⟨1, none, 50⟩

/-- The spec scenario's sample: encoder input `[A, B] = [3, 4]`, target
`[A, B] = [3, 4]`. -/
def scenarioData : List BatchSample := [⟨[[3, 4]], [3, 4]⟩]

/-- A two-sample batch of unequal source lengths, exhibiting the padding
token actually used by `get_batch`. -/
def paddingData : List BatchSample := [⟨[[3, 4]], [3]⟩, ⟨[[3]], [4]⟩]

/-! ## Multi-encoder: `multi_encoder` (decoders.py:11-110)

The recurrent cores (`multi_rnn_unsafe`, `multi_bidirectional_rnn_unsafe`,
from `translate/rnn.py`, which is not among the sources) are abstracted as
function parameters producing the per-timestep output matrix
(time × hidden, the batch dimension of one elided).  The embedding keeps the
source's control flow: the `return` statement at decoders.py:110 is indented
inside the `for` loop over encoders, so the function returns during the first
iteration; with an empty encoder list the loop never runs and the function
falls off the end (Python `None`, modelled as `Option.none`). -/

structure EncoderCfg where
  bidir : Bool
  cellSize : ℕ
deriving DecidableEq

/-- Lines 95-104: the final summary state extracted from the output matrix.
For a bidirectional encoder it is the backward half of the first-timestep
annotation (`encoder_outputs_[:, 0, encoder.cell_size:]`); otherwise the
last-timestep output (`encoder_outputs_[:, -1, :]`). -/
def encoderFinalState (e : EncoderCfg) (out : List (List ℚ)) : List ℚ :=
  if e.bidir then (out.getD 0 []).drop e.cellSize
  else out.getD (out.length - 1) []

/-- `multi_encoder` (decoders.py:11-110).  `runBidir`/`runUni` stand for the
external recurrent cores.  The `assert` at line 24 is the first `none` case;
the early `return` inside the loop produces a singleton outputs list and the
concatenation (`tf.concat(1, encoder_states)`, here `List.flatten`) of the
states collected so far, i.e. only the first encoder's state. -/
def multi_encoder {α : Type} (encoders : List EncoderCfg) (encoderInputs : List α)
    (runBidir runUni : EncoderCfg → α → List (List ℚ)) :
    Option (List (List (List ℚ)) × List ℚ) :=
  if encoders.length ≠ encoderInputs.length then none
  else
    match encoders, encoderInputs with
    | [], _ => none
    | _ :: _, [] => none
    | e :: _, x :: _ =>
      let out := if e.bidir then runBidir e x else runUni e x
      some ([out], List.flatten [encoderFinalState e out])

/-! ## Sentence BLEU: `sentence_bleu` (decoders.py:562-609)

Only the hypothesis truncation and the brevity-penalty denominator are needed
for the division-by-zero claim; `truncate` cuts the sequence at its first
end-of-sequence token (lines 563-567), and line 607 computes
`ref_len / hyp_len` with `hyp_len = tf.shape(hyp)[0]` and no guard. -/

/-- Lines 563-567: `s[:index]` where `index` is the position of the first
`EOS_ID` (or `len(s)` when absent). -/
def bleuTruncate (s : List ℕ) : List ℕ :=
  s.take (s.findIdx (fun x => x == EOS_ID))

/-- `hyp_len` at line 604: the length of the truncated hypothesis, used as
the denominator of `ref_len / hyp_len` in the brevity penalty (line 607). -/
def bleuBrevityDenominator (hyp : List ℕ) : ℚ :=
  ((bleuTruncate hyp).length : ℚ)

/-! ## Attention decoder: `attention_decoder` (decoders.py:338-500)

The decoder is a time-unrolled `tf.while_loop` carrying
`(time, input, state, output, ..., prev_weights)`.  The learned layers
(`multi_attention`, the `maxout` / `softmax0` / `softmax1` linear maps, the
embedding table) and the recurrent cell of `translate/rnn.py` are
deterministic functions of their inputs once the parameters are fixed; they
are fields of `DecoderFuncs`.  The two sources of randomness in the loop,
`tf.random_uniform([])` (teacher-forcing coin) and `tf.multinomial`
(softmax sampling, only reachable when `feed_argmax` is false), are explicit
parameters `rand` and `sampler`.  Type parameters: `S` decoder state,
`E` embedded token, `C` attention context, `W` attention-weight vectors,
`O` cell output, `G` encoder final state. -/

structure DecoderFuncs (S E C W O G : Type) where
  attn : S → W → C × W
  maxoutLin : S → E → C → List ℚ
  softmax0 : List ℚ → List ℚ
  softmax1 : List ℚ → List ℚ
  embed : ℕ → E
  cell : E → C → S → O × S
  zeroOutput : O
  initProj : G → S
  feedArgmax : Bool
  sampler : ℕ → List ℚ → ℕ

/-- Line 446: `tf.reduce_max(tf.reshape(output_, [batch, cell_size // 2, 2]),
axis=2)` — the maxout pairwise reduction over consecutive pairs (row-major
reshape). -/
def maxPairs : List ℚ → List ℚ
  | a :: b :: t => max a b :: maxPairs t
  | _ => []

/-- `tf.argmax(output_, 1)` (line 452): index of the first maximum. -/
def argmaxIdx (l : List ℚ) : ℕ :=
  match l with
  | [] => 0
  | x :: xs =>
    (xs.foldl (fun acc y =>
      if acc.2.2 < y then (acc.2.1 + 1, acc.2.1 + 1, y)
      else (acc.1, acc.2.1 + 1, acc.2.2)) ((0 : ℕ), (0 : ℕ), x)).1

/-- Lines 445-449: the output-vocabulary logits of one step, computed from the
carried state, the carried input embedding and the attention context. -/
def stepLogits {S E C W O G : Type} (F : DecoderFuncs S E C W O G)
    (cfg : S × E × O × W) : List ℚ :=
  F.softmax1 (F.softmax0 (maxPairs (F.maxoutLin cfg.1 cfg.2.1 (F.attn cfg.1 cfg.2.2.2).1)))

/-- Lines 445-448: the intermediate (`softmax0`-projected) representation
written to `decoder_outputs`. -/
def stepDecOutput {S E C W O G : Type} (F : DecoderFuncs S E C W O G)
    (cfg : S × E × O × W) : List ℚ :=
  F.softmax0 (maxPairs (F.maxoutLin cfg.1 cfg.2.1 (F.attn cfg.1 cfg.2.2.2).1))

/-- Lines 452-460, `tf.case`: use the ground-truth next token when
`time < time_steps - 1` and the uniform draw is `≥ feed_previous`; otherwise
sample from the softmax when `feed_argmax` is false; otherwise take the
argmax. -/
def stepSample {S E C W O G : Type} (F : DecoderFuncs S E C W O G) (fp : ℚ)
    (rand : ℕ → ℚ) (tgt : ℕ → ℕ) (T t : ℕ) (cfg : S × E × O × W) : ℕ :=
  if t < T - 1 ∧ fp ≤ rand t then tgt (t + 1)
  else if F.feedArgmax = false then F.sampler t (stepLogits F cfg)
  else argmaxIdx (stepLogits F cfg)

/-- One iteration of `_time_step` (lines 438-485).  For time steps past the
sequence length, `rnn._rnn_step` freezes the state and emits the zero output
instead of advancing the cell. -/
def decStep {S E C W O G : Type} (F : DecoderFuncs S E C W O G) (fp : ℚ)
    (rand : ℕ → ℚ) (tgt : ℕ → ℕ) (T seqLen t : ℕ) (cfg : S × E × O × W) :
    S × E × O × W :=
  let c := (F.attn cfg.1 cfg.2.2.2).1
  let wNew := (F.attn cfg.1 cfg.2.2.2).2
  let sample := stepSample F fp rand tgt T t cfg
  let inpNew := F.embed sample
  let r := if t < seqLen then F.cell inpNew c cfg.1 else (F.zeroOutput, cfg.1)
  (r.2, inpNew, r.1, wNew)

/-- The loop state after `t` iterations of the decoder `tf.while_loop`; the
initial state is the projected encoder state, the embedded first decoder
input (the beginning-of-sequence symbol, line 436), the zero output and the
initial (zero) attention weights. -/
def decCfgAt {S E C W O G : Type} (F : DecoderFuncs S E C W O G) (fp : ℚ)
    (rand : ℕ → ℚ) (tgt : ℕ → ℕ) (T seqLen : ℕ) (init : G) (w0 : W) :
    ℕ → S × E × O × W
  | 0 => (F.initProj init, F.embed (tgt 0), F.zeroOutput, w0)
  | t + 1 => decStep F fp rand tgt T seqLen t (decCfgAt F fp rand tgt T seqLen init w0 t)

/-- The packed `proj_outputs` tensor: the logits of every time step. -/
def attentionDecoderLogits {S E C W O G : Type} (F : DecoderFuncs S E C W O G)
    (fp : ℚ) (rand : ℕ → ℚ) (tgt : ℕ → ℕ) (T seqLen : ℕ) (init : G) (w0 : W) :
    List (List ℚ) :=
  (List.range T).map (fun t => stepLogits F (decCfgAt F fp rand tgt T seqLen init w0 t))

/-- The packed `samples` tensor. -/
def attentionDecoderSamples {S E C W O G : Type} (F : DecoderFuncs S E C W O G)
    (fp : ℚ) (rand : ℕ → ℚ) (tgt : ℕ → ℕ) (T seqLen : ℕ) (init : G) (w0 : W) :
    List ℕ :=
  (List.range T).map (fun t =>
    stepSample F fp rand tgt T t (decCfgAt F fp rand tgt T seqLen init w0 t))

/-- The packed `decoder_outputs` tensor. -/
def attentionDecoderDecOutputs {S E C W O G : Type} (F : DecoderFuncs S E C W O G)
    (fp : ℚ) (rand : ℕ → ℚ) (tgt : ℕ → ℕ) (T seqLen : ℕ) (init : G) (w0 : W) :
    List (List ℚ) :=
  (List.range T).map (fun t => stepDecOutput F (decCfgAt F fp rand tgt T seqLen init w0 t))

/-- A dynamically-typed TensorFlow value, for modelling the Python tuple
returned by `attention_decoder`. -/
inductive TFValue (S O : Type) where
  | arr : List (List ℚ) → TFValue S O
  | noneValue : TFValue S O
  | beamTuple : S → S → O → O → TFValue S O
  | samplesArr : List ℕ → TFValue S O

/-- Line 500: `return proj_outputs, None, decoder_outputs,
beam_tensors(state, new_state, output, new_output), samples` — a five-element
tuple. -/
def attention_decoder_ret {S E C W O G : Type} (F : DecoderFuncs S E C W O G)
    (fp : ℚ) (rand : ℕ → ℚ) (tgt : ℕ → ℕ) (T seqLen : ℕ) (init : G) (w0 : W) :
    List (TFValue S O) :=
  [TFValue.arr (attentionDecoderLogits F fp rand tgt T seqLen init w0),
   TFValue.noneValue,
   TFValue.arr (attentionDecoderDecOutputs F fp rand tgt T seqLen init w0),
   TFValue.beamTuple (F.initProj init) (decCfgAt F fp rand tgt T seqLen init w0 T).1
     F.zeroOutput (decCfgAt F fp rand tgt T seqLen init w0 T).2.2.1,
   TFValue.samplesArr (attentionDecoderSamples F fp rand tgt T seqLen init w0)]

/-- Python tuple unpacking into four targets: succeeds exactly on a
four-element tuple, raises `ValueError` (here `none`) otherwise. -/
def unpackFour {α : Type} : List α → Option (α × α × α × α)
  | [a, b, c, d] => some (a, b, c, d)
  | _ => none

/-- seq2seq_model.py:135-139: `self.outputs, self.attention_weights,
self.decoder_states, self.beam_tensors = decoder(...)` applied to the value
returned by `attention_decoder`. -/
def seq2seq_init_unpack {S E C W O G : Type} (F : DecoderFuncs S E C W O G)
    (fp : ℚ) (rand : ℕ → ℚ) (tgt : ℕ → ℕ) (T seqLen : ℕ) (init : G) (w0 : W) :
    Option (TFValue S O × TFValue S O × TFValue S O × TFValue S O) :=
  unpackFour (attention_decoder_ret F fp rand tgt T seqLen init w0)

/-! ## Attention scorer: `global_attention` / `local_attention`
(decoders.py:237-305)

One-sample (batch 1) embedding over `ℝ`: a hidden-state tensor is a function
`time × component → ℝ`, a vector is `ℕ → ℝ`, with explicit lengths.  The
learned parameters of `compute_energy` (decoders.py:170-190) and of the local
aligned-position predictor are explicit matrix arguments. -/

/-- `compute_energy` (decoders.py:170-190): project the state by `W_a` (with
bias), the hidden states by `U_a`, and reduce `v_a * tanh(f + y)` over the
attention dimension. -/
noncomputable def compute_energy (hidden : ℕ → ℕ → ℝ) (state : ℕ → ℝ)
    (stateSize inputSize attnSize : ℕ) (wa : ℕ → ℕ → ℝ) (b : ℕ → ℝ)
    (ua : ℕ → ℕ → ℝ) (v : ℕ → ℝ) (i : ℕ) : ℝ :=
  ∑ k ∈ Finset.range attnSize,
    v k * Real.tanh ((∑ j ∈ Finset.range inputSize, hidden i j * ua j k)
      + ((∑ j ∈ Finset.range stateSize, state j * wa j k) + b k))

/-- `tf.reduce_max(e, axis=1)` over the first `n` energies (the per-batch
maximum of line 245). -/
noncomputable def rangeMax (e : ℕ → ℝ) : ℕ → ℝ
  | 0 => 0
  | 1 => e 0
  | n + 2 => max (rangeMax e (n + 1)) (e (n + 1))

/-- `tf.sequence_mask(encoder_input_length, time_steps)` (line 247). -/
def seqMask (len i : ℕ) : ℝ :=
  if i < len then 1 else 0

/-- Line 249: `exp = tf.exp(e) * mask`, after the max shift of line 245. -/
noncomputable def globalAttnExp (e : ℕ → ℝ) (n len i : ℕ) : ℝ :=
  Real.exp (e i - rangeMax e n) * seqMask len i

/-- Line 250: `weights = exp / tf.reduce_sum(exp, -1)` — the masked softmax
of `global_attention`, for energies `e`, `n` source positions, true source
length `len`. -/
noncomputable def global_attention_weight (e : ℕ → ℝ) (n len i : ℕ) : ℝ :=
  globalAttnExp e n len i / ∑ j ∈ Finset.range n, globalAttnExp e n len j

/-- `global_attention` (decoders.py:237-256), weight-vector component: the
masked softmax applied to the energies of `compute_energy`. -/
noncomputable def global_attention (hidden : ℕ → ℕ → ℝ) (state : ℕ → ℝ)
    (stateSize inputSize attnSize : ℕ) (wa : ℕ → ℕ → ℝ) (b : ℕ → ℝ)
    (ua : ℕ → ℕ → ℝ) (v : ℕ → ℝ) (n len i : ℕ) : ℝ :=
  global_attention_weight (compute_energy hidden state stateSize inputSize attnSize wa b ua v)
    n len i

/-- Line 255: the context vector = weighted sum of the hidden states. -/
noncomputable def attentionContext (w : ℕ → ℕ → ℝ → ℝ) (hidden : ℕ → ℕ → ℝ)
    (n h : ℕ) : ℝ :=
  ∑ i ∈ Finset.range n, w i h 0 * hidden i h

/-- `tf.nn.sigmoid`. -/
noncomputable def sigmoidR (x : ℝ) : ℝ :=
  1 / (1 + Real.exp (-x))

/-- Lines 272-273: the predicted aligned source position
`pt = floor(S * sigmoid(tanh(state · Wp) · vp))`. -/
noncomputable def localAlignedPos (state : ℕ → ℝ) (stateSize : ℕ)
    (wp : ℕ → ℕ → ℝ) (vp : ℕ → ℝ) (n : ℕ) : ℝ :=
  ((⌊(n : ℝ) * sigmoidR (∑ k ∈ Finset.range stateSize,
      Real.tanh (∑ j ∈ Finset.range stateSize, state j * wp j k) * vp k)⌋ : ℤ) : ℝ)

/-- Lines 280-286: the window mask — 1 inside `[pt - w, pt + w]`, 0 outside. -/
noncomputable def localWindowMask (pt : ℝ) (window i : ℕ) : ℝ :=
  if ((if ((i : ℝ) < pt - window) then (1 : ℝ) else 0)
      + (if ((i : ℝ) > pt + window) then (1 : ℝ) else 0)) = 0 then 1 else 0

/-- `tf.nn.softmax` over the first `n` components. -/
noncomputable def softmaxR (x : ℕ → ℝ) (n i : ℕ) : ℝ :=
  Real.exp (x i) / ∑ j ∈ Finset.range n, Real.exp (x j)

/-- Lines 297-303 of `local_attention`: softmax of the window-masked energies
multiplied by the truncated Gaussian `exp(-(i - pt)^2 / (w/2)^2)`. -/
noncomputable def local_attention_weight (e : ℕ → ℝ) (pt : ℝ) (window n i : ℕ) : ℝ :=
  softmaxR (fun j => e j * localWindowMask pt window j) n i
    * Real.exp (-(((i : ℝ) - pt) ^ 2) / (((window : ℝ) / 2) ^ 2))

/-- `local_attention` (decoders.py:259-305), weight-vector component.  Note
that the function receives no source-length argument: the source never masks
positions beyond the true source length in local mode. -/
noncomputable def local_attention (hidden : ℕ → ℕ → ℝ) (state : ℕ → ℝ)
    (stateSize inputSize attnSize : ℕ) (wa : ℕ → ℕ → ℝ) (b : ℕ → ℝ)
    (ua : ℕ → ℕ → ℝ) (v : ℕ → ℝ) (wp : ℕ → ℕ → ℝ) (vp : ℕ → ℝ)
    (window n i : ℕ) : ℝ :=
  local_attention_weight (compute_energy hidden state stateSize inputSize attnSize wa b ua v)
    (localAlignedPos state stateSize wp vp n) window n i

/-- A trivial concrete decoder-parameter instance, used to instantiate the
round-trip theorem on a concrete input. -/
def unitDecoderFuncs : DecoderFuncs Unit Unit Unit Unit Unit Unit :=
  { attn := fun _ _ => ((), ())
    maxoutLin := fun _ _ _ => [0, 1]
    softmax0 := id
    softmax1 := id
    embed := fun _ => ()
    cell := fun _ _ _ => ((), ())
    zeroOutput := ()
    initProj := fun _ => ()
    feedArgmax := true
    sampler := fun _ _ => 0 }

/-- The greedy output of `unitDecoderFuncs` re-fed as ground truth:
`BOS` at position 0, then the argmax of the greedy run's step-`t` logits at
position `t + 1` — exactly what `greedy_decoding` (seq2seq_model.py:356)
returns. -/
def roundtripTgt (n : ℕ) : ℕ :=
  if n = 0 then 0
  else argmaxIdx ((attentionDecoderLogits unitDecoderFuncs 1 (fun _ => (1 : ℚ)/2)
    (fun _ => 0) 2 2 () ()).getD (n - 1) [])

/-! ## Beam search: `Seq2SeqModel.beam_search_decoding`
(seq2seq_model.py:358-518)

The TensorFlow sessions are read-only oracles: each ensemble member is a
function from the time step and a hypothesis (which determines the carried
decoder state) to its softmax output row `decoder_output`.  `np.log` is an
abstract function parameter `logF` (transcendental; `np.log 0 = -inf` is the
float edge the source's own FIXME at line 465 notes).  Scores live in
`WithTop ℚ`: the float `-inf` produced for out-of-vocabulary or `BOS`
language-model entries (lines 449-452) becomes `⊥ : WithBot ℚ`, and
subtracting it at line 466 yields `⊤` (float `+inf`).  `np.argsort` is an
ascending sort of indices (its tie order is unspecified; a stable sort is
used here). -/

abbrev Hyp := List ℕ

abbrev Score := WithTop ℚ

/-- The n-gram language model of the `ngrams` argument: its order
(`len(ngrams)`), its unigram table membership test, and the external
`utils.estimate_lm_score` for in-vocabulary queries. -/
structure LMModel where
  order : ℕ
  hasUnigram : ℕ → Bool
  estimate : List ℕ → ℚ

structure BeamParams where
  vocabSize : ℕ
  maxOutputLen : ℕ
  sessions : List (ℕ → Hyp → List ℚ)
  logF : ℚ → ℚ
  lm : Option LMModel
  lmWeight : Option ℚ
  lenNormalization : ℕ

/-- Lines 441-442: `hypothesis = [BOS_ID] + hypothesis;
history = hypothesis[1 - lm_order:]` (a Python negative-index slice: the last
`lm_order - 1` elements, or the whole list when `lm_order ≤ 1` or the list is
shorter). -/
def lmHistory (order : ℕ) (hyp : Hyp) : Hyp :=
  let h := BOS_ID :: hyp
  if 2 ≤ order then h.drop (h.length - (order - 1)) else h

/-- Lines 445-455: the language-model score of one candidate token — float
`-inf` (`⊥`) for tokens missing from the unigram table and for `BOS`,
otherwise the external n-gram estimate of `history + [token]`. -/
def lmScoreEntry (lm : LMModel) (hyp : Hyp) (tok : ℕ) : WithBot ℚ :=
  if lm.hasUnigram tok = false then ⊥
  else if tok = BOS_ID then ⊥
  else ((lm.estimate (lmHistory lm.order hyp ++ [tok]) : ℚ) : WithBot ℚ)

/-- Line 462 (`lm_score = np.zeros(...)`) when no n-gram model is given,
lines 435-458 otherwise. -/
def lmRow (P : BeamParams) (hyp : Hyp) (tok : ℕ) : WithBot ℚ :=
  match P.lm with
  | none => ((0 : ℚ) : WithBot ℚ)
  | some lm => lmScoreEntry lm hyp tok

/-- Line 459: `lm_weight = self.lm_weight or 0.2` — Python `or` replaces both
`None` and `0` by the default `0.2`. -/
def lmWeightValue (P : BeamParams) : ℚ :=
  match P.lmWeight with
  | none => 1/5
  | some x => if x = 0 then 1/5 else x

/-- Line 460 / 463: the `np.average` weight vector —
`[(1 - lm_weight) / len(session)] * len(session) + [lm_weight]` with a
language model, `None` without. -/
def averageWeights (P : BeamParams) : Option (List ℚ) :=
  match P.lm with
  | none => none
  | some _ =>
    some (List.replicate P.sessions.length
      ((1 - lmWeightValue P) / P.sessions.length) ++ [lmWeightValue P])

/-- Multiplication of a possibly `-inf` value by a (positive) weight. -/
def wbScale (q : ℚ) (x : WithBot ℚ) : WithBot ℚ :=
  WithBot.map (fun a => q * a) x

/-- Division of a possibly `-inf` value by a (positive) scalar. -/
def wbDiv (x : WithBot ℚ) (q : ℚ) : WithBot ℚ :=
  WithBot.map (fun a => a / q) x

/-- `np.average(xs, axis=0, weights=ws)`: the plain mean over the list when
`ws` is `None`, otherwise `sum(w * x) / sum(w)`. -/
def npAverage (xs : List (WithBot ℚ)) (ws : Option (List ℚ)) : WithBot ℚ :=
  match ws with
  | none => wbDiv xs.sum (xs.length : ℚ)
  | some w => wbDiv (List.zipWith wbScale w xs).sum w.sum

/-- Line 466: one candidate's cumulative score,
`scores[hyp] - average(...)`; subtracting a `-inf` average gives `+inf`. -/
def candidateScore (s : Score) (a : WithBot ℚ) : Score :=
  match s, a with
  | ⊤, _ => ⊤
  | (_ : ℚ), ⊥ => ⊤
  | (q : ℚ), (x : ℚ) => ((q - x : ℚ) : Score)

/-- Lines 435-468: the flattened candidate-score matrix `scores_` of one beam
step — row `h` (a live hypothesis), column `v` (a vocabulary token), flat
index `h * vocab_size + v`. -/
def beamFlatScores (P : BeamParams) (t : ℕ) (live : List (Hyp × Score)) :
    List Score :=
  live.flatMap (fun hs =>
    (List.range P.vocabSize).map (fun v =>
      candidateScore hs.2
        (npAverage
          (P.sessions.map (fun sess =>
            ((P.logF ((sess t hs.1).getD v 0) : ℚ) : WithBot ℚ)) ++ [lmRow P hs.1 v])
          (averageWeights P))))

/-- `np.argsort` ascending over the scores, as a stable index sort. -/
def argsortScores (l : List Score) : List ℕ :=
  (List.range l.length).mergeSort (fun a b => decide (l.getD a ⊤ ≤ l.getD b ⊤))

/-- Line 469: `flat_ids = np.argsort(scores_)[:beam_size]`. -/
def beamSelectedIds (P : BeamParams) (t width : ℕ) (live : List (Hyp × Score)) :
    List ℕ :=
  (argsortScores (beamFlatScores P t live)).take width

/-- The loop state of `beam_search_decoding`: the current (shrinking) beam
width, the live hypotheses with their cumulative scores, and the finished
ones. -/
structure BeamState where
  beamWidth : ℕ
  live : List (Hyp × Score)
  finished : List (Hyp × Score)
deriving DecidableEq

/-- The body of the loop at lines 480-497, processing one selected flat id:
the candidate's token is `flat_id % vocab_size`, its parent hypothesis is row
`flat_id // vocab_size` of the live beam, its score is the flat-score entry.
A candidate whose token is the end marker is retired to the finished set and
decrements the width (line 486); every other candidate joins the new live
beam. -/
def beamStepFold (P : BeamParams) (liveOld : List (Hyp × Score))
    (flat : List Score) (acc : BeamState) (id : ℕ) : BeamState :=
  let tok := id % P.vocabSize
  let hyp := (liveOld.getD (id / P.vocabSize) ([], 0)).1 ++ [tok]
  let sc := flat.getD id ⊤
  if tok = EOS_ID then
    { beamWidth := acc.beamWidth - 1, live := acc.live,
      finished := acc.finished ++ [(hyp, sc)] }
  else
    { beamWidth := acc.beamWidth, live := acc.live ++ [(hyp, sc)],
      finished := acc.finished }

/-- Lines 474-503: fold the loop body over the selected flat ids, starting
from an empty new live beam. -/
def beamStep (P : BeamParams) (t : ℕ) (st : BeamState) : BeamState :=
  (beamSelectedIds P t st.beamWidth st.live).foldl
    (beamStepFold P st.live (beamFlatScores P t st.live))
    { beamWidth := st.beamWidth, live := [], finished := st.finished }

/-- Lines 381-385: a single empty live hypothesis of score 0, no finished
hypotheses, the caller's beam width. -/
def beamInit (B : ℕ) : BeamState :=
  { beamWidth := B, live := [([], (0 : Score))], finished := [] }

/-- The loop state after `k` iterations of `for i in range(self.max_output_len)`
(line 392): the state freezes once the width has reached zero (the `break` at
lines 505-506) or `max_output_len` steps have run. -/
def beamStateAt (P : BeamParams) (B : ℕ) : ℕ → BeamState
  | 0 => beamInit B
  | k + 1 =>
    let st := beamStateAt P B k
    if st.beamWidth = 0 ∨ P.maxOutputLen ≤ k then st else beamStep P k st

/-- Lines 511-512: divide the score by `len(hypothesis) ** len_normalization`
when the normalization exponent is positive. -/
def lengthNormalize (P : BeamParams) (hs : Hyp × Score) : Score :=
  if 0 < P.lenNormalization then
    WithTop.map (fun q => q / ((hs.1.length : ℚ) ^ P.lenNormalization)) hs.2
  else hs.2

/-- `beam_search_decoding` (lines 358-518): run the loop, merge the remaining
live hypotheses with the finished ones (line 508), length-normalize, and sort
ascending by (normalized) score. -/
def beam_search_decoding (P : BeamParams) (B : ℕ) : List (Hyp × Score) :=
  let fin := beamStateAt P B P.maxOutputLen
  let merged := fin.live ++ fin.finished
  let normed := merged.map (fun hs => (hs.1, lengthNormalize P hs))
  (argsortScores (normed.map (fun hs => hs.2))).map (fun i => normed.getD i ([], 0))

/-- The scoring rule claimed by the spec for the no-language-model case: the
hypothesis score minus the plain average of the supplied models'
log-probabilities (divisor `len(session)`, not `len(session) + 1`). -/
def specPlainModelAverageScore (P : BeamParams) (t : ℕ) (hyp : Hyp) (s : Score)
    (v : ℕ) : Score :=
  candidateScore s
    (((P.sessions.map (fun sess => P.logF ((sess t hyp).getD v 0))).sum
      / P.sessions.length : ℚ))

/-- A concrete one-model, two-token beam configuration for the scoring
counterexample: the model's softmax row is `[1, 2]` and `logF` is the
identity, so the model's "log-probabilities" are `1` and `2`. -/
def beamCounterexampleParams : BeamParams :=
  { vocabSize := 2
    maxOutputLen := 1
    sessions := [fun _ _ => [1, 2]]
    logF := id
    lm := none
    lmWeight := none
    lenNormalization := 1 }

/-- A concrete beam configuration for instantiating the invariant theorem. -/
def beamWitnessParams : BeamParams :=
  { vocabSize := 2
    maxOutputLen := 1
    sessions := [fun _ _ => [1, 1]]
    logF := id
    lm := none
    lmWeight := none
    lenNormalization := 1 }

/-- After `for i in range(n)` the Python loop variable holds `n - 1`, or its
previous value when the range is empty. -/
def pyForLastIndex (n prev : ℕ) : ℕ :=
  if n = 0 then prev else n - 1

/-- seq2seq_model.py:405-411: the guard `if i > 0` (line 409) that decides
whether `beam_tensors.output` is fed, evaluated after the inner loop
`for i in range(self.encoder_count)` (line 406) has overwritten the outer
time-step variable `i` (line 392). -/
def beamFeedsPrevOutput (encoderCount t : ℕ) : Bool :=
  decide (0 < pyForLastIndex encoderCount t)

-- ===================================================================
-- Helper lemmas (shared across claims)
-- ===================================================================

theorem getD_append_replicate {α : Type} (l : List α) (k : ℕ) (c d : α) (j : ℕ)
    (h1 : l.length ≤ j) (h2 : j < l.length + k) :
    (l ++ List.replicate k c).getD j d = c := by
  have hlen : j < (l ++ List.replicate k c).length := by
    simp only [List.length_append, List.length_replicate]; omega
  rw [List.getD_eq_getElem _ _ hlen, List.getElem_append_right h1,
    List.getElem_replicate]

theorem getD_range_map {β : Type} (n : ℕ) (f : ℕ → β) (i : ℕ) (d : β) (h : i < n) :
    ((List.range n).map f).getD i d = f i := by
  have hlen : i < ((List.range n).map f).length := by simpa using h
  rw [List.getD_eq_getElem _ _ hlen, List.getElem_map, List.getElem_range]

theorem roundtrip_cfg_eq {S E C W O G : Type} (F : DecoderFuncs S E C W O G)
    (hargmax : F.feedArgmax = true)
    (rand1 rand2 : ℕ → ℚ) (tgtDummy tgtFeed : ℕ → ℕ) (T seqLen : ℕ) (init : G) (w0 : W)
    (hr1 : ∀ t, rand1 t < 1) (hr2 : ∀ t, 0 ≤ rand2 t)
    (h0 : tgtFeed 0 = tgtDummy 0)
    (hfeed : ∀ t, t + 1 < T → tgtFeed (t + 1)
      = argmaxIdx ((attentionDecoderLogits F 1 rand1 tgtDummy T seqLen init w0).getD t [])) :
    ∀ t, decCfgAt F 0 rand2 tgtFeed T seqLen init w0 t
      = decCfgAt F 1 rand1 tgtDummy T seqLen init w0 t := by
  intro t
  induction t with
  | zero => simp [decCfgAt, h0]
  | succ t ih =>
    simp only [decCfgAt]
    rw [ih]
    set cfg := decCfgAt F 1 rand1 tgtDummy T seqLen init w0 t with hcfg
    have hsg : stepSample F 1 rand1 tgtDummy T t cfg = argmaxIdx (stepLogits F cfg) := by
      have h1 : ¬ ((1 : ℚ) ≤ rand1 t) := not_le.mpr (hr1 t)
      simp [stepSample, hargmax, h1]
    have hsf : stepSample F 0 rand2 tgtFeed T t cfg = argmaxIdx (stepLogits F cfg) := by
      by_cases hT : t < T - 1
      · have ht1 : t + 1 < T := by omega
        simp only [stepSample, if_pos (And.intro hT (hr2 t))]
        rw [hfeed t ht1]
        unfold attentionDecoderLogits
        rw [getD_range_map T _ t [] (by omega)]
      · simp [stepSample, hT, hargmax]
    simp [decStep, hsg, hsf]


theorem global_attention_weight_props (e : ℕ → ℝ) (n len : ℕ)
    (h1 : 1 ≤ len) (h2 : len ≤ n) :
    (∀ i, len ≤ i → global_attention_weight e n len i = 0)
    ∧ (∑ i ∈ Finset.range len, global_attention_weight e n len i = 1)
    ∧ (∑ i ∈ Finset.range n, global_attention_weight e n len i = 1) := by
  have hnn : ∀ j ∈ Finset.range n, 0 ≤ globalAttnExp e n len j := by
    intro j _
    unfold globalAttnExp seqMask
    apply mul_nonneg (Real.exp_pos _).le
    split <;> norm_num
  have hpos : 0 < ∑ j ∈ Finset.range n, globalAttnExp e n len j := by
    apply Finset.sum_pos' hnn
    refine ⟨0, Finset.mem_range.mpr (by omega), ?_⟩
    unfold globalAttnExp seqMask
    rw [if_pos (by omega)]
    simpa using Real.exp_pos _
  have hmask : ∀ i, len ≤ i → global_attention_weight e n len i = 0 := by
    intro i hi
    unfold global_attention_weight globalAttnExp seqMask
    rw [if_neg (by omega)]
    simp
  have hsum : ∑ i ∈ Finset.range n, global_attention_weight e n len i = 1 := by
    unfold global_attention_weight
    rw [← Finset.sum_div]
    exact div_self (ne_of_gt hpos)
  refine ⟨hmask, ?_, hsum⟩
  rw [Finset.sum_subset (Finset.range_subset.mpr h2)]
  · exact hsum
  · intro i _ hi
    apply hmask
    simp only [Finset.mem_range, not_lt] at hi
    exact hi


theorem argsortScores_perm (l : List Score) :
    (argsortScores l).Perm (List.range l.length) :=
  List.mergeSort_perm _ _

theorem argsortScores_length (l : List Score) :
    (argsortScores l).length = l.length := by
  rw [(argsortScores_perm l).length_eq, List.length_range]

theorem argsortScores_mem_lt (l : List Score) (i : ℕ) (h : i ∈ argsortScores l) :
    i < l.length := by
  have := (argsortScores_perm l).mem_iff.mp h
  simpa using this

theorem argsortScores_sorted (l : List Score) :
    (argsortScores l).Pairwise (fun a b => l.getD a ⊤ ≤ l.getD b ⊤) := by
  have htrans : ∀ a b c : ℕ,
      (fun a b => decide (l.getD a ⊤ ≤ l.getD b ⊤)) a b = true →
      (fun a b => decide (l.getD a ⊤ ≤ l.getD b ⊤)) b c = true →
      (fun a b => decide (l.getD a ⊤ ≤ l.getD b ⊤)) a c = true := by
    intro a b c hab hbc
    simp only [decide_eq_true_eq] at *
    exact le_trans hab hbc
  have htotal : ∀ a b : ℕ,
      ((fun a b => decide (l.getD a ⊤ ≤ l.getD b ⊤)) a b
        || (fun a b => decide (l.getD a ⊤ ≤ l.getD b ⊤)) b a) = true := by
    intro a b
    simpa using le_total (l.getD a ⊤) (l.getD b ⊤)
  have hs := List.sorted_mergeSort htrans htotal (List.range l.length)
  refine hs.imp ?_
  intro a b hab
  simpa using hab

theorem argsort_take_sorted (l : List Score) (B : ℕ) :
    ((argsortScores l).take B).Pairwise (fun a b => l.getD a ⊤ ≤ l.getD b ⊤) :=
  (argsortScores_sorted l).sublist (List.take_sublist _ _)

theorem argsort_take_min (l : List Score) (B a j : ℕ)
    (ha : a ∈ (argsortScores l).take B) (hj : j < l.length)
    (hnj : j ∉ (argsortScores l).take B) :
    l.getD a ⊤ ≤ l.getD j ⊤ := by
  have hsplit : argsortScores l
      = (argsortScores l).take B ++ (argsortScores l).drop B :=
    (List.take_append_drop _ _).symm
  have hp := argsortScores_sorted l
  rw [hsplit, List.pairwise_append] at hp
  have hjmem : j ∈ argsortScores l :=
    (argsortScores_perm l).mem_iff.mpr (List.mem_range.mpr hj)
  rw [hsplit] at hjmem
  rcases List.mem_append.mp hjmem with hcase | hcase
  · exact absurd hcase hnj
  · exact hp.2.2 a ha j hcase

theorem flatMap_range_getD {α β : Type} (g : α → ℕ → β) (V : ℕ) (d : β) (da : α) :
    ∀ (l : List α) (h v : ℕ), h < l.length → v < V →
      (l.flatMap (fun a => (List.range V).map (g a))).getD (h * V + v) d
        = g (l.getD h da) v := by
  intro l
  induction l with
  | nil => intro h v hh _; simp at hh
  | cons a tl ih =>
    intro h v hh hv
    rw [List.flatMap_cons]
    cases h with
    | zero =>
      rw [Nat.zero_mul, Nat.zero_add]
      rw [List.getD_append _ _ _ _ (by simpa using hv)]
      rw [List.getD_cons_zero]
      have hlen : v < ((List.range V).map (g a)).length := by simpa using hv
      rw [List.getD_eq_getElem _ _ hlen, List.getElem_map, List.getElem_range]
    | succ h2 =>
      have hidx : (h2 + 1) * V + v
          = ((List.range V).map (g a)).length + (h2 * V + v) := by
        simp only [List.length_map, List.length_range]
        ring
      rw [hidx, List.getD_append_right _ _ _ _ (by omega), Nat.add_sub_cancel_left,
        List.getD_cons_succ]
      exact ih h2 v (by simpa using hh) hv

theorem flatMap_range_length {α β : Type} (g : α → ℕ → β) (V : ℕ) (l : List α) :
    (l.flatMap (fun a => (List.range V).map (g a))).length = l.length * V := by
  rw [List.length_flatMap]
  have hmap : l.map (List.length ∘ fun a => (List.range V).map (g a))
      = l.map (fun _ => V) := by
    apply List.map_congr_left
    intro a _
    simp
  rw [hmap]
  induction l with
  | nil => simp
  | cons a tl ih => simp [ih, Nat.succ_mul, Nat.add_comm]

theorem beamFlatScores_length (P : BeamParams) (t : ℕ) (live : List (Hyp × Score)) :
    (beamFlatScores P t live).length = live.length * P.vocabSize :=
  flatMap_range_length _ _ _

theorem beamFlatScores_getD (P : BeamParams) (t : ℕ) (live : List (Hyp × Score))
    (h v : ℕ) (hh : h < live.length) (hv : v < P.vocabSize) :
    (beamFlatScores P t live).getD (h * P.vocabSize + v) ⊤
      = candidateScore (live.getD h ([], 0)).2
          (npAverage
            (P.sessions.map (fun sess =>
              ((P.logF ((sess t (live.getD h ([], 0)).1).getD v 0) : ℚ) : WithBot ℚ))
              ++ [lmRow P (live.getD h ([], 0)).1 v])
            (averageWeights P)) := by
  unfold beamFlatScores
  exact flatMap_range_getD _ P.vocabSize ⊤ ([], 0) live h v hh hv

theorem coe_map_sum {α : Type} (f : α → ℚ) (l : List α) :
    (l.map (fun x => ((f x : ℚ) : WithBot ℚ))).sum = ((l.map f).sum : WithBot ℚ) := by
  induction l with
  | nil => simp
  | cons a tl ih => simp [ih]

theorem sum_append_bot (l : List (WithBot ℚ)) :
    (l ++ [(⊥ : WithBot ℚ)]).sum = ⊥ := by
  induction l with
  | nil => simp
  | cons a tl ih => simp [ih]

theorem zipWith_wbScale_replicate {α : Type} (q : ℚ) (f : α → ℚ) (l : List α) :
    List.zipWith wbScale (List.replicate l.length q)
      (l.map (fun x => ((f x : ℚ) : WithBot ℚ)))
      = l.map (fun x => ((q * f x : ℚ) : WithBot ℚ)) := by
  induction l with
  | nil => simp
  | cons a tl ih => simp [List.replicate_succ, wbScale, ih]

theorem candidateScore_bot (s : Score) : candidateScore s ⊥ = ⊤ := by
  induction s using WithTop.recTopCoe with
  | top => rfl
  | coe q => rfl


theorem wbDiv_coe (x q : ℚ) :
    wbDiv ((x : ℚ) : WithBot ℚ) q = ((x / q : ℚ) : WithBot ℚ) := rfl

theorem zipWith_append_eq {α β γ : Type} (f : α → β → γ) (l1 l2 : List α)
    (m1 m2 : List β) (h : l1.length = m1.length) :
    List.zipWith f (l1 ++ l2) (m1 ++ m2)
      = List.zipWith f l1 m1 ++ List.zipWith f l2 m2 :=
  List.zipWith_append f l1 l2 m1 m2 h

theorem replicate_sum_weights (n : ℕ) (lam : ℚ) (hn : 1 ≤ n) :
    (List.replicate n ((1 - lam) / n) ++ [lam]).sum = 1 := by
  rw [List.sum_append, List.sum_replicate, List.sum_cons, List.sum_nil, add_zero]
  have hne : (n : ℚ) ≠ 0 := by
    exact_mod_cast Nat.one_le_iff_ne_zero.mp hn
  rw [nsmul_eq_mul]
  field_simp

theorem npAverage_noLM {α : Type} (f : α → ℚ) (l : List α) :
    npAverage (l.map (fun x => ((f x : ℚ) : WithBot ℚ)) ++ [((0 : ℚ) : WithBot ℚ)]) none
      = ((((l.map f).sum / ((l.length : ℚ) + 1)) : ℚ) : WithBot ℚ) := by
  unfold npAverage
  rw [List.sum_append, coe_map_sum]
  simp only [List.sum_cons, List.sum_nil, add_zero, ← WithBot.coe_add]
  rw [wbDiv_coe]
  simp

theorem npAverage_LM_coe {α : Type} (f : α → ℚ) (l : List α) (lam x : ℚ)
    (hl : 1 ≤ l.length) :
    npAverage (l.map (fun a => ((f a : ℚ) : WithBot ℚ)) ++ [((x : ℚ) : WithBot ℚ)])
      (some (List.replicate l.length ((1 - lam) / l.length) ++ [lam]))
      = ((((l.map (fun a => ((1 - lam) / l.length) * f a)).sum + lam * x : ℚ)) : WithBot ℚ) := by
  show wbDiv (List.zipWith wbScale _ _).sum _ = _
  rw [zipWith_append_eq _ _ _ _ _ (by simp)]
  rw [zipWith_wbScale_replicate]
  rw [replicate_sum_weights l.length lam hl]
  have hsingle : List.zipWith wbScale [lam] [((x : ℚ) : WithBot ℚ)]
      = [((lam * x : ℚ) : WithBot ℚ)] := by
    simp [wbScale]
  rw [hsingle, List.sum_append, coe_map_sum]
  simp only [List.sum_cons, List.sum_nil, add_zero, ← WithBot.coe_add]
  rw [wbDiv_coe]
  simp

theorem npAverage_LM_bot {α : Type} (f : α → ℚ) (l : List α) (lam : ℚ) :
    npAverage (l.map (fun a => ((f a : ℚ) : WithBot ℚ)) ++ [(⊥ : WithBot ℚ)])
      (some (List.replicate l.length ((1 - lam) / l.length) ++ [lam]))
      = ⊥ := by
  show wbDiv (List.zipWith wbScale _ _).sum _ = _
  rw [zipWith_append_eq _ _ _ _ _ (by simp)]
  have hsingle : List.zipWith wbScale [lam] [(⊥ : WithBot ℚ)]
      = [(⊥ : WithBot ℚ)] := by
    simp [wbScale]
  rw [hsingle, sum_append_bot]
  rfl

theorem beamStepFold_inv (P : BeamParams) (liveOld : List (Hyp × Score))
    (flat : List Score) (B L : ℕ)
    (hOld : ∀ p ∈ liveOld, p.1.length = L) :
    ∀ (l : List ℕ) (acc : BeamState),
      (∀ id ∈ l, id / P.vocabSize < liveOld.length) →
      l.length ≤ acc.beamWidth →
      acc.finished.length + acc.beamWidth = B →
      acc.live.length + l.length ≤ acc.beamWidth →
      (∀ p ∈ acc.live, p.1.length = L + 1) →
      (∀ p ∈ acc.finished, ∃ h, p.1 = h ++ [EOS_ID]) →
      ((l.foldl (beamStepFold P liveOld flat) acc).finished.length
          + (l.foldl (beamStepFold P liveOld flat) acc).beamWidth = B)
      ∧ ((l.foldl (beamStepFold P liveOld flat) acc).live.length
          ≤ (l.foldl (beamStepFold P liveOld flat) acc).beamWidth)
      ∧ ((l.foldl (beamStepFold P liveOld flat) acc).beamWidth ≤ acc.beamWidth)
      ∧ (∀ p ∈ (l.foldl (beamStepFold P liveOld flat) acc).live, p.1.length = L + 1)
      ∧ (∀ p ∈ (l.foldl (beamStepFold P liveOld flat) acc).finished,
          ∃ h, p.1 = h ++ [EOS_ID]) := by
  intro l
  induction l with
  | nil =>
    intro acc _ _ hB hlive hQ hR
    simp only [List.foldl_nil]
    exact ⟨hB, by omega, le_refl _, hQ, hR⟩
  | cons id rest ih =>
    intro acc hdiv hlen hB hlive hQ hR
    rw [List.foldl_cons]
    have hdiv0 : id / P.vocabSize < liveOld.length := hdiv id (List.mem_cons_self _ _)
    have hdivrest : ∀ i ∈ rest, i / P.vocabSize < liveOld.length := by
      intro i hi
      exact hdiv i (List.mem_cons_of_mem _ hi)
    have hlen1 : rest.length + 1 ≤ acc.beamWidth := by
      simpa [Nat.add_comm] using hlen
    have hlive1 : acc.live.length + (rest.length + 1) ≤ acc.beamWidth := by
      simpa [Nat.add_comm] using hlive
    have hhyplen : ((liveOld.getD (id / P.vocabSize) ([], 0)).1
        ++ [id % P.vocabSize]).length = L + 1 := by
      rw [List.length_append, List.getD_eq_getElem _ _ hdiv0]
      have := hOld (liveOld[id / P.vocabSize]) (List.getElem_mem _)
      simp [this]
    by_cases htok : id % P.vocabSize = EOS_ID
    · have hstep : beamStepFold P liveOld flat acc id
          = { beamWidth := acc.beamWidth - 1, live := acc.live,
              finished := acc.finished
                ++ [((liveOld.getD (id / P.vocabSize) ([], 0)).1
                    ++ [id % P.vocabSize], flat.getD id ⊤)] } := by
        simp [beamStepFold, htok]
      rw [hstep]
      have hres := ih
        { beamWidth := acc.beamWidth - 1, live := acc.live,
          finished := acc.finished
            ++ [((liveOld.getD (id / P.vocabSize) ([], 0)).1
                ++ [id % P.vocabSize], flat.getD id ⊤)] }
        hdivrest
        (show rest.length ≤ acc.beamWidth - 1 by omega)
        (show (acc.finished ++ [_]).length + (acc.beamWidth - 1) = B by
          rw [List.length_append]
          simp only [List.length_singleton]
          omega)
        (show acc.live.length + rest.length ≤ acc.beamWidth - 1 by omega)
        (show ∀ p ∈ acc.live, p.1.length = L + 1 from hQ)
        (by
          show ∀ p ∈ acc.finished ++ [_], ∃ h, p.1 = h ++ [EOS_ID]
          intro p hp
          rcases List.mem_append.mp hp with hcase | hcase
          · exact hR p hcase
          · simp only [List.mem_singleton] at hcase
            refine ⟨(liveOld.getD (id / P.vocabSize) ([], 0)).1, ?_⟩
            rw [hcase]
            simp [htok])
      have h3 : (List.foldl (beamStepFold P liveOld flat) _ rest).beamWidth
          ≤ acc.beamWidth - 1 := hres.2.2.1
      exact ⟨hres.1, hres.2.1, by omega, hres.2.2.2.1, hres.2.2.2.2⟩
    · have hstep : beamStepFold P liveOld flat acc id
          = { beamWidth := acc.beamWidth,
              live := acc.live
                ++ [((liveOld.getD (id / P.vocabSize) ([], 0)).1
                    ++ [id % P.vocabSize], flat.getD id ⊤)],
              finished := acc.finished } := by
        simp [beamStepFold, htok]
      rw [hstep]
      have hres := ih
        { beamWidth := acc.beamWidth,
          live := acc.live
            ++ [((liveOld.getD (id / P.vocabSize) ([], 0)).1
                ++ [id % P.vocabSize], flat.getD id ⊤)],
          finished := acc.finished }
        hdivrest
        (show rest.length ≤ acc.beamWidth by omega)
        (show acc.finished.length + acc.beamWidth = B from hB)
        (show (acc.live ++ [_]).length + rest.length ≤ acc.beamWidth by
          rw [List.length_append]
          simp only [List.length_singleton]
          omega)
        (by
          show ∀ p ∈ acc.live ++ [_], p.1.length = L + 1
          intro p hp
          rcases List.mem_append.mp hp with hcase | hcase
          · exact hQ p hcase
          · simp only [List.mem_singleton] at hcase
            rw [hcase]
            exact hhyplen)
        (show ∀ p ∈ acc.finished, ∃ h, p.1 = h ++ [EOS_ID] from hR)
      have h3 : (List.foldl (beamStepFold P liveOld flat) _ rest).beamWidth
          ≤ acc.beamWidth := hres.2.2.1
      exact ⟨hres.1, hres.2.1, by omega, hres.2.2.2.1, hres.2.2.2.2⟩

theorem beamStep_inv (P : BeamParams) (B t L : ℕ) (st : BeamState)
    (h1 : st.finished.length + st.beamWidth = B)
    (_h2 : st.live.length ≤ st.beamWidth)
    (h3 : ∀ p ∈ st.live, p.1.length = L)
    (h4 : ∀ p ∈ st.finished, ∃ h, p.1 = h ++ [EOS_ID]) :
    ((beamStep P t st).finished.length + (beamStep P t st).beamWidth = B)
    ∧ ((beamStep P t st).live.length ≤ (beamStep P t st).beamWidth)
    ∧ ((beamStep P t st).beamWidth ≤ st.beamWidth)
    ∧ (∀ p ∈ (beamStep P t st).live, p.1.length = L + 1)
    ∧ (∀ p ∈ (beamStep P t st).finished, ∃ h, p.1 = h ++ [EOS_ID]) := by
  have hid_lt : ∀ id ∈ beamSelectedIds P t st.beamWidth st.live,
      id / P.vocabSize < st.live.length := by
    intro id hid
    have hmem : id ∈ argsortScores (beamFlatScores P t st.live) :=
      List.mem_of_mem_take hid
    have hlt : id < (beamFlatScores P t st.live).length :=
      argsortScores_mem_lt _ _ hmem
    rw [beamFlatScores_length, Nat.mul_comm] at hlt
    exact Nat.div_lt_of_lt_mul hlt
  have hlen_ids : (beamSelectedIds P t st.beamWidth st.live).length ≤ st.beamWidth := by
    unfold beamSelectedIds
    rw [List.length_take]
    exact min_le_left _ _
  unfold beamStep
  have hres := beamStepFold_inv P st.live (beamFlatScores P t st.live) B L h3
    (beamSelectedIds P t st.beamWidth st.live)
    { beamWidth := st.beamWidth, live := [], finished := st.finished }
    hid_lt
    (show _ ≤ st.beamWidth from hlen_ids)
    (show st.finished.length + st.beamWidth = B from h1)
    (show (List.length ([] : List (Hyp × Score))) + _ ≤ st.beamWidth by
      simpa using hlen_ids)
    (by simp)
    (show ∀ p ∈ st.finished, ∃ h, p.1 = h ++ [EOS_ID] from h4)
  have h5 : (List.foldl (beamStepFold P st.live (beamFlatScores P t st.live))
      { beamWidth := st.beamWidth, live := [], finished := st.finished }
      (beamSelectedIds P t st.beamWidth st.live)).beamWidth ≤ st.beamWidth :=
    hres.2.2.1
  exact ⟨hres.1, hres.2.1, h5, hres.2.2.2.1, hres.2.2.2.2⟩

theorem beamInv_all (P : BeamParams) (B : ℕ) (hB : 1 ≤ B) :
    ∀ k, ((beamStateAt P B k).finished.length + (beamStateAt P B k).beamWidth = B)
      ∧ ((beamStateAt P B k).live.length ≤ (beamStateAt P B k).beamWidth)
      ∧ (∀ p ∈ (beamStateAt P B k).live, p.1.length = min k P.maxOutputLen)
      ∧ (∀ p ∈ (beamStateAt P B k).finished, ∃ h, p.1 = h ++ [EOS_ID]) := by
  intro k
  induction k with
  | zero =>
    refine ⟨by simp [beamStateAt, beamInit], by simpa [beamStateAt, beamInit] using hB,
      ?_, by simp [beamStateAt, beamInit]⟩
    intro p hp
    simp only [beamStateAt, beamInit, List.mem_singleton] at hp
    simp [hp]
  | succ k ih =>
    by_cases hfreeze : (beamStateAt P B k).beamWidth = 0 ∨ P.maxOutputLen ≤ k
    · have hstate : beamStateAt P B (k + 1) = beamStateAt P B k := by
        simp only [beamStateAt]
        rw [if_pos hfreeze]
      rw [hstate]
      refine ⟨ih.1, ih.2.1, ?_, ih.2.2.2⟩
      intro p hp
      rcases hfreeze with hw | hT
      · have : (beamStateAt P B k).live.length = 0 := by omega
        rw [List.length_eq_zero] at this
        rw [this] at hp
        simp at hp
      · have : min k P.maxOutputLen = min (k + 1) P.maxOutputLen := by omega
        rw [← this]
        exact ih.2.2.1 p hp
    · push_neg at hfreeze
      have hstate : beamStateAt P B (k + 1) = beamStep P k (beamStateAt P B k) := by
        simp only [beamStateAt]
        rw [if_neg]
        push_neg
        exact hfreeze
      have hkT : k < P.maxOutputLen := by omega
      have hmin : min k P.maxOutputLen = k := by omega
      have hres := beamStep_inv P B k k (beamStateAt P B k) ih.1 ih.2.1
        (fun p hp => hmin ▸ ih.2.2.1 p hp) ih.2.2.2
      rw [hstate]
      refine ⟨hres.1, hres.2.1, ?_, hres.2.2.2.2⟩
      intro p hp
      have : min (k + 1) P.maxOutputLen = k + 1 := by omega
      rw [this]
      exact hres.2.2.2.1 p hp

theorem beamWidth_mono (P : BeamParams) (B : ℕ) (hB : 1 ≤ B) (k : ℕ) :
    (beamStateAt P B (k + 1)).beamWidth ≤ (beamStateAt P B k).beamWidth := by
  by_cases hfreeze : (beamStateAt P B k).beamWidth = 0 ∨ P.maxOutputLen ≤ k
  · simp only [beamStateAt]
    rw [if_pos hfreeze]
  · push_neg at hfreeze
    have hstate : beamStateAt P B (k + 1) = beamStep P k (beamStateAt P B k) := by
      simp only [beamStateAt]
      rw [if_neg]
      push_neg
      exact hfreeze
    rw [hstate]
    have ih := beamInv_all P B hB k
    exact (beamStep_inv P B k (min k P.maxOutputLen) (beamStateAt P B k)
      ih.1 ih.2.1 ih.2.2.1 ih.2.2.2).2.2.1

theorem beamStateAt_frozen_zero (P : BeamParams) (B k : ℕ)
    (h : (beamStateAt P B k).beamWidth = 0) :
    beamStateAt P B (k + 1) = beamStateAt P B k := by
  simp only [beamStateAt]
  rw [if_pos (Or.inl h)]

theorem beamStateAt_frozen_after (P : BeamParams) (B : ℕ) :
    ∀ k, P.maxOutputLen ≤ k → beamStateAt P B k = beamStateAt P B P.maxOutputLen := by
  intro k
  induction k with
  | zero =>
    intro hk
    have : P.maxOutputLen = 0 := by omega
    rw [this]
  | succ k ih =>
    intro hk
    rcases Nat.lt_or_ge P.maxOutputLen (k + 1) with hlt | hge
    · have hk2 : P.maxOutputLen ≤ k := by omega
      have : beamStateAt P B (k + 1) = beamStateAt P B k := by
        simp only [beamStateAt]
        rw [if_pos (Or.inr hk2)]
      rw [this]
      exact ih hk2
    · have : P.maxOutputLen = k + 1 := by omega
      rw [this]

-- ===================================================================
-- Claim theorems
-- ===================================================================

/-- Claim C7: on the spec's scenario (vocabulary `{PAD=0, EOS=1, BOS=2, A=3,
B=4}`, one sample with encoder input `[A, B]` and target `[A, B]`, teacher
forcing), `get_batch` produces time-major `decoder_inputs = [BOS, A, B]`,
`targets = [A, B, EOS]`, `target_weights = [1, 1, 1]` (the batch size is 1,
so each time step is a one-element row). -/
theorem C7_get_batch_scenario :
    (get_batch scenarioCfg scenarioData false).decoderInputs = [[2], [3], [4]]
    ∧ (get_batch scenarioCfg scenarioData false).targets = [[3], [4], [1]]
    ∧ (get_batch scenarioCfg scenarioData false).targetWeights = [[1], [1], [1]] := by
  refine ⟨by decide, by decide, by decide⟩

/-- Claim C8 counterexample: in the two-sample batch `paddingData` the second
sample's source `[A] = [3]` is padded (beyond its effective length 2) with the
end-of-sequence token `EOS_ID = 1`, not with the pad token at embedding-matrix
index 0 as the claim states. -/
theorem C8_counterexample :
    (((get_batch scenarioCfg paddingData false).encoderInputs.getD 0 []).getD 1 []).getD 2 0
      = (EOS_ID : ℤ)
    ∧ ((EOS_ID : ℤ) ≠ 0) := by
  decide

/-- Claim C8 (amended): every token-encoder sequence is padded up to one more
than the per-encoder batch maximum using the end-of-sequence token `EOS_ID`
(a zero vector for binary inputs), the decoder-side rows carry the appended
end marker at position `len+1` and `EOS_ID` at every later position after the
`-1 → EOS` sentinel replacement, and the per-encoder and decoder
effective-length entries are the true (truncated) unpadded length plus one,
counting the appended end marker. -/
theorem C8_get_batch_padding (cfg : BatchConfig) (data : List BatchSample)
    (i : ℕ) (hi : i < cfg.encoderCount) (s : BatchSample) (_hs : s ∈ data) :
    (encoderRow cfg data i s).length = cappedMaxInputLen cfg data i + 1
    ∧ (∀ j, ((s.srcs.getD i []).take (cappedMaxInputLen cfg data i)).length ≤ j →
        j < cappedMaxInputLen cfg data i + 1 →
        (encoderRow cfg data i s).getD j 0 = (EOS_ID : ℤ))
    ∧ encoderRowLen cfg data i s
        = ((s.srcs.getD i []).take (cappedMaxInputLen cfg data i)).length + 1
    ∧ (get_batch cfg data false).encoderInputs.getD i []
        = data.map (encoderRow cfg data i)
    ∧ (get_batch cfg data false).encoderInputLength.getD i []
        = data.map (encoderRowLen cfg data i)
    ∧ (decoderRow cfg data false s).length = batchMaxOutputLen cfg data + 2
    ∧ (((decoderRow cfg data false s).map
          (fun x => if x = -1 then (EOS_ID : ℤ) else x)).getD
        ((s.trg.take (batchMaxOutputLen cfg data)).length + 1) 0 = (EOS_ID : ℤ))
    ∧ (∀ j, (s.trg.take (batchMaxOutputLen cfg data)).length + 2 ≤ j →
        j < batchMaxOutputLen cfg data + 2 →
        ((decoderRow cfg data false s).map
          (fun x => if x = -1 then (EOS_ID : ℤ) else x)).getD j 0 = (EOS_ID : ℤ))
    ∧ decoderRowLen cfg data false s
        = (s.trg.take (batchMaxOutputLen cfg data)).length + 1
    ∧ (∀ (m ml : ℕ) (src : List (List ℚ)) j, (src.take ml).length ≤ j →
        j < ml + 1 → (binaryEncoderRow m ml src).getD j [] = binaryPad m) := by
  have hsrc : ((s.srcs.getD i []).take (cappedMaxInputLen cfg data i)).length
      ≤ cappedMaxInputLen cfg data i := by
    rw [List.length_take]; omega
  have htrg : (s.trg.take (batchMaxOutputLen cfg data)).length
      ≤ batchMaxOutputLen cfg data := by
    rw [List.length_take]; omega
  refine ⟨?_, ?_, rfl, ?_, ?_, ?_, ?_, ?_, rfl, ?_⟩
  · simp only [encoderRow, List.length_append, List.length_replicate]
    omega
  · intro j h1 h2
    exact getD_append_replicate _ _ _ _ _ h1 (by omega)
  · exact getD_range_map _ _ _ _ hi
  · exact getD_range_map _ _ _ _ hi
  · simp [decoderRow, List.length_take]
    omega
  · have hrow : (decoderRow cfg data false s).map
        (fun x => if x = -1 then (EOS_ID : ℤ) else x)
        = ((2 : ℤ) :: ((s.trg.take (batchMaxOutputLen cfg data)).map
              (fun x => if x = -1 then (EOS_ID : ℤ) else x) ++ [(1 : ℤ)]))
          ++ List.replicate
              (batchMaxOutputLen cfg data - (s.trg.take (batchMaxOutputLen cfg data)).length)
              (1 : ℤ) := by
      simp only [decoderRow, Bool.false_eq_true, if_false, List.map_cons, List.map_append,
        List.map_replicate, List.cons_append, List.append_assoc]
      norm_num [EOS_ID, BOS_ID]
    rw [hrow]
    rw [List.getD_append _ _ _ _ (by simp)]
    rw [List.getD_cons_succ]
    rw [List.getD_append_right _ _ _ _ (by simp)]
    simp [EOS_ID]
  · intro j h1 h2
    have hrow : (decoderRow cfg data false s).map
        (fun x => if x = -1 then (EOS_ID : ℤ) else x)
        = ((2 : ℤ) :: ((s.trg.take (batchMaxOutputLen cfg data)).map
              (fun x => if x = -1 then (EOS_ID : ℤ) else x) ++ [(1 : ℤ)]))
          ++ List.replicate
              (batchMaxOutputLen cfg data - (s.trg.take (batchMaxOutputLen cfg data)).length)
              (1 : ℤ) := by
      simp only [decoderRow, Bool.false_eq_true, if_false, List.map_cons, List.map_append,
        List.map_replicate, List.cons_append, List.append_assoc]
      norm_num [EOS_ID, BOS_ID]
    rw [hrow]
    rw [getD_append_replicate _ _ _ _ _
      (by simp only [List.length_cons, List.length_append, List.length_map,
        List.length_singleton, List.length_nil]; omega)
      (by simp only [List.length_cons, List.length_append, List.length_map,
        List.length_singleton, List.length_nil]; omega)]
    simp [EOS_ID]
  · intro m ml src j h1 h2
    exact getD_append_replicate _ _ _ _ _ h1 (by rw [List.length_take] at h1 ⊢; omega)

/-- Claim C8 witness: the amended padding theorem applied to the concrete
two-sample batch `paddingData`. -/
theorem C8_get_batch_padding_witness :
    (0 < scenarioCfg.encoderCount ∧ (⟨[[3, 4]], [3]⟩ : BatchSample) ∈ paddingData)
    ∧ (encoderRow scenarioCfg paddingData 0 ⟨[[3, 4]], [3]⟩).length
        = cappedMaxInputLen scenarioCfg paddingData 0 + 1 := by
  refine ⟨⟨by decide, by decide⟩, ?_⟩
  exact (C8_get_batch_padding scenarioCfg paddingData 0 (by decide)
    ⟨[[3, 4]], [3]⟩ (by decide)).1

/-- Claim C4: `multi_encoder`'s docstring (and the spec) promise one
per-timestep output tensor per encoder and the concatenation of all final
states, but the `return` at decoders.py:110 sits inside the loop over
encoders: for any two-encoder configuration only the first channel is
encoded, the outputs list has length 1 (not 2), and the "concatenated" final
state is the first encoder's state alone.  The single-encoder case does
satisfy the contract. -/
theorem C4_multi_encoder_early_return {α : Type} (e₁ e₂ : EncoderCfg) (x₁ x₂ : α)
    (runBidir runUni : EncoderCfg → α → List (List ℚ)) :
    (multi_encoder [e₁, e₂] [x₁, x₂] runBidir runUni)
      = some ([if e₁.bidir then runBidir e₁ x₁ else runUni e₁ x₁],
          encoderFinalState e₁ (if e₁.bidir then runBidir e₁ x₁ else runUni e₁ x₁))
    ∧ ((multi_encoder [e₁, e₂] [x₁, x₂] runBidir runUni).map
        (fun r => r.1.length)) = some 1
    ∧ (multi_encoder [e₁] [x₁] runBidir runUni)
      = some ([if e₁.bidir then runBidir e₁ x₁ else runUni e₁ x₁],
          encoderFinalState e₁ (if e₁.bidir then runBidir e₁ x₁ else runUni e₁ x₁)) := by
  refine ⟨?_, ?_, ?_⟩ <;> simp [multi_encoder]

/-- Claim C9: the hypothesis `[EOS]` truncates to the empty sequence, so the
brevity penalty's denominator `hyp_len` is `0`; `sentence_bleu` divides
`ref_len / hyp_len` (decoders.py:607) without any zero-denominator guard. -/
theorem C9_brevity_zero_denominator :
    bleuTruncate [EOS_ID] = [] ∧ bleuBrevityDenominator [EOS_ID] = 0 := by
  constructor
  · decide
  · norm_num [bleuBrevityDenominator]
    decide

/-- Claim C5: with attention enabled (the default), `Seq2SeqModel.__init__`
unpacks the decoder builder's result into exactly four targets
(seq2seq_model.py:135-139) while `attention_decoder` returns a five-tuple
(decoders.py:500), so construction always raises (`none`) before any training
or decoding operation is built, for every parameter choice. -/
theorem C5_init_unpack_fails {S E C W O G : Type} (F : DecoderFuncs S E C W O G)
    (fp : ℚ) (rand : ℕ → ℚ) (tgt : ℕ → ℕ) (T seqLen : ℕ) (init : G) (w0 : W) :
    seq2seq_init_unpack F fp rand tgt T seqLen init w0 = none := rfl

/-- Claim C6: round-trip determinism.  If greedy decoding
(`feed_previous = 1.0`, uniform draws strictly below 1, `feed_argmax` true)
produces the token sequence `argmax` of the per-step logits, then re-running
the decoder with that sequence as ground truth under teacher forcing
(`feed_previous = 0.0`, draws `≥ 0`) reproduces exactly the same per-step
logits: the forward pass is deterministic given fixed parameters and the
fed tokens coincide with the greedily chosen ones at every step. -/
theorem C6_greedy_roundtrip {S E C W O G : Type} (F : DecoderFuncs S E C W O G)
    (hargmax : F.feedArgmax = true)
    (rand1 rand2 : ℕ → ℚ) (tgtDummy tgtFeed : ℕ → ℕ) (T seqLen : ℕ) (init : G) (w0 : W)
    (hr1 : ∀ t, rand1 t < 1) (hr2 : ∀ t, 0 ≤ rand2 t)
    (h0 : tgtFeed 0 = tgtDummy 0)
    (hfeed : ∀ t, t + 1 < T → tgtFeed (t + 1)
      = argmaxIdx ((attentionDecoderLogits F 1 rand1 tgtDummy T seqLen init w0).getD t [])) :
    attentionDecoderLogits F 0 rand2 tgtFeed T seqLen init w0
      = attentionDecoderLogits F 1 rand1 tgtDummy T seqLen init w0 := by
  unfold attentionDecoderLogits
  apply List.map_congr_left
  intro t ht
  rw [roundtrip_cfg_eq F hargmax rand1 rand2 tgtDummy tgtFeed T seqLen init w0
    hr1 hr2 h0 hfeed t]

/-- Claim C6 witness: the round-trip theorem applied to the concrete
parameter instance `unitDecoderFuncs` with two decoding steps. -/
theorem C6_greedy_roundtrip_witness :
    attentionDecoderLogits unitDecoderFuncs 0 (fun _ => 0) roundtripTgt 2 2 () ()
      = attentionDecoderLogits unitDecoderFuncs 1 (fun _ => (1 : ℚ)/2) (fun _ => 0) 2 2 () () :=
  C6_greedy_roundtrip unitDecoderFuncs rfl (fun _ => (1 : ℚ)/2) (fun _ => 0)
    (fun _ => 0) roundtripTgt 2 2 () ()
    (fun _ => by norm_num) (fun _ => le_refl 0) rfl
    (fun t ht => by
      have h : t = 0 := by omega
      subst h
      rfl)

/-- Claim C3 counterexample: in local (windowed) attention mode the weight at
source position 1 is strictly positive — not 0 — for a concrete input whose
true source length is 1 (so position 1 is beyond the true source length and
outside of no window could save it: `local_attention` never consults the
source length, and the softmax of the multiplicatively window-masked energies
assigns every position a strictly positive weight, which the Gaussian factor
never cancels).  All learned parameters are zero, there are `n = 2` source
positions, the window size is 1. -/
theorem C3_counterexample :
    local_attention (fun _ _ => 0) (fun _ => 0) 1 1 1 (fun _ _ => 0) (fun _ => 0)
      (fun _ _ => 0) (fun _ => 0) (fun _ _ => 0) (fun _ => 0) 1 2 1 ≠ 0 := by
  have hpos : 0 < local_attention (fun _ _ => 0) (fun _ => 0) 1 1 1 (fun _ _ => 0)
      (fun _ => 0) (fun _ _ => 0) (fun _ => 0) (fun _ _ => 0) (fun _ => 0) 1 2 1 := by
    unfold local_attention local_attention_weight softmaxR
    apply mul_pos
    · apply div_pos (Real.exp_pos _)
      apply Finset.sum_pos
      · intro j _
        exact Real.exp_pos _
      · exact ⟨0, Finset.mem_range.mpr (by omega)⟩
    · exact Real.exp_pos _
  exact hpos.ne'

/-- Claim C3 (amended, global mode): for every decoder state, hidden states,
learned parameters, source length `n` and true length `len` with
`1 ≤ len ≤ n`, the `global_attention` weight vector is exactly 0 at every
position at or beyond the true source length, and sums to 1 both over the
non-masked positions and over all positions (the normalization divides by the
sum over non-masked positions only, after the max shift).  In local mode the
property fails (see the counterexample). -/
theorem C3_global_attention_masked (hidden : ℕ → ℕ → ℝ) (state : ℕ → ℝ)
    (stateSize inputSize attnSize : ℕ) (wa : ℕ → ℕ → ℝ) (b : ℕ → ℝ)
    (ua : ℕ → ℕ → ℝ) (v : ℕ → ℝ) (n len : ℕ) (h1 : 1 ≤ len) (h2 : len ≤ n) :
    (∀ i, len ≤ i →
      global_attention hidden state stateSize inputSize attnSize wa b ua v n len i = 0)
    ∧ (∑ i ∈ Finset.range len,
        global_attention hidden state stateSize inputSize attnSize wa b ua v n len i = 1)
    ∧ (∑ i ∈ Finset.range n,
        global_attention hidden state stateSize inputSize attnSize wa b ua v n len i = 1) := by
  unfold global_attention
  exact global_attention_weight_props _ n len h1 h2

/-- Claim C3 witness: the amended global-attention theorem applied to the
all-zero parameters with two source positions and true length one. -/
theorem C3_global_attention_masked_witness :
    ((1 : ℕ) ≤ 1 ∧ (1 : ℕ) ≤ 2)
    ∧ ((∀ i, 1 ≤ i →
        global_attention (fun _ _ => 0) (fun _ => 0) 1 1 1 (fun _ _ => 0) (fun _ => 0)
          (fun _ _ => 0) (fun _ => 0) 2 1 i = 0)
      ∧ (∑ i ∈ Finset.range 1,
          global_attention (fun _ _ => 0) (fun _ => 0) 1 1 1 (fun _ _ => 0) (fun _ => 0)
            (fun _ _ => 0) (fun _ => 0) 2 1 i = 1)
      ∧ (∑ i ∈ Finset.range 2,
          global_attention (fun _ _ => 0) (fun _ => 0) 1 1 1 (fun _ _ => 0) (fun _ => 0)
            (fun _ _ => 0) (fun _ => 0) 2 1 i = 1)) :=
  ⟨⟨by decide, by decide⟩,
    C3_global_attention_masked (fun _ _ => 0) (fun _ => 0) 1 1 1 (fun _ _ => 0)
      (fun _ => 0) (fun _ _ => 0) (fun _ => 0) 2 1 (by decide) (by decide)⟩

/-- Claim C2 (amended): at every beam step the candidate score at flat index
`h * vocab_size + v` is the hypothesis's accumulated score minus a per-token
quantity that is: with no n-gram language model, the sum of the models'
log-probabilities divided by `len(sessions) + 1` (the zero language-model
placeholder row participates in the unweighted `np.average` — not the plain
model average the spec states); with a language model, the weighted average
`Σ ((1 - lm_weight)/n) · log p + lm_weight · lm` (`+inf`, i.e. `⊤`, when the
language-model entry is `-inf`).  The kept candidates are the first
`beam_width` indices of an ascending sort: their count is
`min beam_width (|live| · vocab)`, their scores are ascending, and no kept
candidate scores worse than any discarded one. -/
theorem C2_beam_step_scoring (P : BeamParams) (t : ℕ) (live : List (Hyp × Score))
    (h v : ℕ) (hh : h < live.length) (hv : v < P.vocabSize)
    (hn : 1 ≤ P.sessions.length) :
    (P.lm = none →
      (beamFlatScores P t live).getD (h * P.vocabSize + v) ⊤
        = candidateScore (live.getD h ([], 0)).2
            ((((P.sessions.map (fun sess =>
                P.logF ((sess t (live.getD h ([], 0)).1).getD v 0))).sum
              / ((P.sessions.length : ℚ) + 1) : ℚ) : WithBot ℚ)))
    ∧ (∀ lm : LMModel, P.lm = some lm →
        (∀ x : ℚ, lmScoreEntry lm (live.getD h ([], 0)).1 v = ((x : ℚ) : WithBot ℚ) →
          (beamFlatScores P t live).getD (h * P.vocabSize + v) ⊤
            = candidateScore (live.getD h ([], 0)).2
                ((((P.sessions.map (fun sess =>
                    ((1 - lmWeightValue P) / (P.sessions.length : ℚ))
                      * P.logF ((sess t (live.getD h ([], 0)).1).getD v 0))).sum
                  + lmWeightValue P * x : ℚ) : WithBot ℚ)))
        ∧ (lmScoreEntry lm (live.getD h ([], 0)).1 v = ⊥ →
          (beamFlatScores P t live).getD (h * P.vocabSize + v) ⊤ = ⊤))
    ∧ (∀ B, (beamSelectedIds P t B live).length
        = min B (live.length * P.vocabSize))
    ∧ (∀ B, (beamSelectedIds P t B live).Pairwise (fun a b =>
        (beamFlatScores P t live).getD a ⊤ ≤ (beamFlatScores P t live).getD b ⊤))
    ∧ (∀ B a j, a ∈ beamSelectedIds P t B live →
        j < live.length * P.vocabSize → j ∉ beamSelectedIds P t B live →
        (beamFlatScores P t live).getD a ⊤ ≤ (beamFlatScores P t live).getD j ⊤) := by
  refine ⟨?_, ?_, ?_, ?_, ?_⟩
  · intro hP
    rw [beamFlatScores_getD P t live h v hh hv]
    have hw : averageWeights P = none := by simp [averageWeights, hP]
    have hr : lmRow P (live.getD h ([], 0)).1 v = ((0 : ℚ) : WithBot ℚ) := by
      simp [lmRow, hP]
    rw [hw, hr, npAverage_noLM]
  · intro lm hP
    have hw : averageWeights P
        = some (List.replicate P.sessions.length
            ((1 - lmWeightValue P) / P.sessions.length) ++ [lmWeightValue P]) := by
      simp [averageWeights, hP]
    have hr : lmRow P (live.getD h ([], 0)).1 v
        = lmScoreEntry lm (live.getD h ([], 0)).1 v := by
      simp [lmRow, hP]
    constructor
    · intro x hx
      rw [beamFlatScores_getD P t live h v hh hv, hw, hr, hx]
      rw [show List.replicate P.sessions.length
            ((1 - lmWeightValue P) / (P.sessions.length : ℚ))
          = List.replicate (P.sessions.length)
            ((1 - lmWeightValue P) / (P.sessions.length : ℚ)) from rfl]
      rw [npAverage_LM_coe _ _ _ _ hn]
    · intro hx
      rw [beamFlatScores_getD P t live h v hh hv, hw, hr, hx]
      rw [npAverage_LM_bot]
      exact candidateScore_bot _
  · intro B
    unfold beamSelectedIds
    rw [List.length_take, argsortScores_length, beamFlatScores_length]
  · intro B
    exact argsort_take_sorted _ _
  · intro B a j ha hj hnj
    unfold beamSelectedIds at ha hnj
    exact argsort_take_min _ B a j ha (by rw [beamFlatScores_length]; exact hj) hnj

/-- Claim C2 counterexample: with one model whose log-probabilities (via the
identity `logF`) are `[1, 2]` and an empty initial hypothesis of score 0, the
code's candidate score for token 1 is `0 - (2 + 0)/2 = -1` (the zero LM row
is averaged in, divisor `n + 1 = 2`), while the claim's plain model average
(divisor `n = 1`) gives `0 - 2 = -2`. -/
theorem C2_counterexample :
    (beamFlatScores beamCounterexampleParams 0 [([], 0)]).getD 1 ⊤ = (((-1 : ℚ)) : Score)
    ∧ specPlainModelAverageScore beamCounterexampleParams 0 [] 0 1 = (((-2 : ℚ)) : Score)
    ∧ (beamFlatScores beamCounterexampleParams 0 [([], 0)]).getD 1 ⊤
        ≠ specPlainModelAverageScore beamCounterexampleParams 0 [] 0 1 := by
  refine ⟨?_, ?_, ?_⟩
  · norm_num [beamFlatScores, beamCounterexampleParams, npAverage, wbDiv, lmRow,
      averageWeights, candidateScore, List.flatMap]
  · norm_num [specPlainModelAverageScore, beamCounterexampleParams, candidateScore]
  · have h1 : (beamFlatScores beamCounterexampleParams 0 [([], 0)]).getD 1 ⊤
        = (((-1 : ℚ)) : Score) := by
      norm_num [beamFlatScores, beamCounterexampleParams, npAverage, wbDiv, lmRow,
        averageWeights, candidateScore, List.flatMap]
    have h2 : specPlainModelAverageScore beamCounterexampleParams 0 [] 0 1
        = (((-2 : ℚ)) : Score) := by
      norm_num [specPlainModelAverageScore, beamCounterexampleParams, candidateScore]
    rw [h1, h2]
    intro hcontra
    have : (-1 : ℚ) = -2 := by exact_mod_cast hcontra
    norm_num at this

/-- Claim C2 witness: the scoring theorem applied to the concrete one-model
configuration `beamWitnessParams` at the initial beam state. -/
theorem C2_beam_step_scoring_witness :
    ((0 : ℕ) < ([([], (0 : Score))] : List (Hyp × Score)).length
      ∧ (0 : ℕ) < beamWitnessParams.vocabSize
      ∧ 1 ≤ beamWitnessParams.sessions.length)
    ∧ (∀ B, (beamSelectedIds beamWitnessParams 0 B [([], 0)]).length
        = min B (([([], (0 : Score))] : List (Hyp × Score)).length
            * beamWitnessParams.vocabSize)) :=
  ⟨⟨by simp, by norm_num [beamWitnessParams], by norm_num [beamWitnessParams]⟩,
    (C2_beam_step_scoring beamWitnessParams 0 [([], 0)] 0 0 (by simp)
      (by norm_num [beamWitnessParams]) (by norm_num [beamWitnessParams])).2.2.1⟩

/-- Claim C1: beam-search invariants.  For every model oracle and initial
width `B ≥ 1`: at every step the number of finished hypotheses plus the beam
width equals `B` and the live count never exceeds the width (so
finished + live ≤ B); the width is non-increasing (decremented once per
end-of-sequence candidate, never replenished); the loop state freezes as soon
as the width reaches zero or `max_output_len` steps have elapsed; and every
returned hypothesis either ends with the end-of-sequence token or has length
`max_output_len`. -/
theorem C1_beam_search_invariants (P : BeamParams) (B : ℕ) (hB : 1 ≤ B) :
    (∀ k, (beamStateAt P B k).finished.length + (beamStateAt P B k).live.length ≤ B)
    ∧ (∀ k, (beamStateAt P B k).finished.length + (beamStateAt P B k).beamWidth = B)
    ∧ (∀ k, (beamStateAt P B (k + 1)).beamWidth ≤ (beamStateAt P B k).beamWidth)
    ∧ (∀ k, (beamStateAt P B k).beamWidth = 0 →
        beamStateAt P B (k + 1) = beamStateAt P B k)
    ∧ (∀ k, P.maxOutputLen ≤ k →
        beamStateAt P B k = beamStateAt P B P.maxOutputLen)
    ∧ ((beam_search_decoding P B).length ≤ B)
    ∧ (∀ p ∈ beam_search_decoding P B,
        (∃ h, p.1 = h ++ [EOS_ID]) ∨ p.1.length = P.maxOutputLen) := by
  have hinv := beamInv_all P B hB
  refine ⟨?_, ?_, ?_, ?_, ?_, ?_, ?_⟩
  · intro k
    have h1 := (hinv k).1
    have h2 := (hinv k).2.1
    omega
  · intro k
    exact (hinv k).1
  · intro k
    exact beamWidth_mono P B hB k
  · intro k
    exact beamStateAt_frozen_zero P B k
  · exact beamStateAt_frozen_after P B
  · simp only [beam_search_decoding]
    rw [List.length_map, argsortScores_length, List.length_map, List.length_map,
      List.length_append]
    have h1 := (hinv P.maxOutputLen).1
    have h2 := (hinv P.maxOutputLen).2.1
    omega
  · intro p hp
    simp only [beam_search_decoding] at hp
    have hmem : p ∈ ((beamStateAt P B P.maxOutputLen).live
        ++ (beamStateAt P B P.maxOutputLen).finished).map
          (fun hs => (hs.1, lengthNormalize P hs)) := by
      rcases List.mem_map.mp hp with ⟨i, hi, hpi⟩
      have hlt : i < (((beamStateAt P B P.maxOutputLen).live
          ++ (beamStateAt P B P.maxOutputLen).finished).map
            (fun hs => (hs.1, lengthNormalize P hs))).length := by
        have := argsortScores_mem_lt _ _ hi
        simpa using this
      rw [← hpi, List.getD_eq_getElem _ _ hlt]
      exact List.getElem_mem _
    rcases List.mem_map.mp hmem with ⟨q, hq, hqp⟩
    rcases List.mem_append.mp hq with hcase | hcase
    · right
      rw [← hqp]
      have := (hinv P.maxOutputLen).2.2.1 q hcase
      simpa using this
    · left
      rw [← hqp]
      exact (hinv P.maxOutputLen).2.2.2 q hcase

/-- Claim C1 witness: the invariant theorem applied to the concrete one-model
configuration `beamWitnessParams` with initial beam width 1. -/
theorem C1_beam_search_invariants_witness :
    (1 : ℕ) ≤ 1 ∧ (beam_search_decoding beamWitnessParams 1).length ≤ 1 :=
  ⟨le_refl 1,
    (C1_beam_search_invariants beamWitnessParams 1 (by decide)).2.2.2.2.2.1⟩

/-- Claim C10: with exactly one encoder, the guard `if i > 0`
(seq2seq_model.py:409) reads the loop variable left by
`for i in range(self.encoder_count)` (line 406) — always `0` for one
encoder — instead of the time-step counter, so `beam_tensors.output` is never
fed at any time step. -/
theorem C10_beam_output_never_fed :
    (∀ t, beamFeedsPrevOutput 1 t = false) ∧ (∀ t, pyForLastIndex 1 t = 0) := by
  constructor
  · intro t
    rfl
  · intro t
    rfl
